import Mathlib

set_option maxHeartbeats 1600000
set_option maxRecDepth 8192

/-!
Verification of the segmentation-and-attribution engine in
`riksdagen_corpus/segmentation.py`.  Python strings are modelled as Lean
`String`, pandas columns as Lean lists, `None`/null cells as `Option`.
-/

/-- Whitespace characters stripped by Python `str.strip()` / split by
`str.split()` (the ASCII subset, which covers the texts at hand). -/
def isPyWhite (c : Char) : Bool :=
  c = ' ' || c = '\t' || c = '\n' || c = '\r' || c = '\x0b' || c = '\x0c'

/-- Prefix test on character lists. -/
def charsPre : List Char → List Char → Bool
  | [], _ => true
  | _ :: _, [] => false
  | a :: as, b :: bs => a == b && charsPre as bs

/-- Substring test on character lists. -/
def charsIn (pat : List Char) : List Char → Bool
  | [] => charsPre pat []
  | b :: bs => charsPre pat (b :: bs) || charsIn pat bs

/-- Python substring containment `pat in hay`. -/
def strIn (pat hay : String) : Bool := charsIn pat.toList hay.toList

/-- Python `str.upper()` on the alphabet the code deals with
(ASCII letters plus the Swedish letters appearing in the regex class). -/
def pyUpperChar (c : Char) : Char :=
  if c = 'å' then 'Å' else if c = 'ä' then 'Ä' else if c = 'ö' then 'Ö'
  else c.toUpper

/-- Python `str.upper()`. -/
def pyUpper (s : String) : String := String.map pyUpperChar s

/-- Accumulator-style word splitter used to model Python `str.split()`
(split on whitespace runs, dropping empty tokens). -/
def wordsAux : List Char → List Char → List String
  | [], cur => if cur.isEmpty then [] else [String.mk cur.reverse]
  | c :: cs, cur =>
    if isPyWhite c then
      if cur.isEmpty then wordsAux cs [] else String.mk cur.reverse :: wordsAux cs []
    else wordsAux cs (c :: cur)

/-- Python `name.split()` (no separator argument). -/
def pyWords (s : String) : List String := wordsAux s.toList []

/-- Python `name.split()[-1]`.  On a name with no tokens the source raises
IndexError, so theorems about the resolver carry the hypothesis that every
roster name has at least one token; the `""` default is never reached there. -/
def lastNameOf (name : String) : String := (pyWords name).getLastD ""

/-- Python `txt.strip()`. -/
def pyStrip (s : String) : String :=
  String.mk (((s.toList.dropWhile isPyWhite).reverse.dropWhile isPyWhite).reverse)

/-- Speaker-resolution block of `find_instances_xml`
(segmentation.py lines 65-83): three tiers of roster scans, each loop
overwriting `person` on every hit and never breaking. -/
def resolve_speaker (names : List String) (matched_txt : String) : Option String :=
  let person : Option String :=
    names.foldl (fun p name => if strIn name matched_txt then some name else p) none
  let person :=
    if person.isNone then
      names.foldl (fun p name => if strIn (pyUpper name) matched_txt then some name else p) none
    else person
  let person :=
    if person.isNone then
      names.foldl (fun p name =>
        let last_name := " " ++ lastNameOf name
        if strIn last_name matched_txt then some name
        else if strIn (pyUpper last_name) matched_txt then some name
        else p) none
    else person
  person

/-- Lines 47-49 of `find_instances_xml`: the roster is the `name` column of
`mp_db`, a list of possibly-null cells; `mp_db[mp_db["name"].notnull()]`
drops exactly the null cells before the tier loops run. -/
def resolve_in_roster (roster : List (Option String)) (matched_txt : String) : Option String :=
  resolve_speaker (roster.filterMap id) matched_txt

/-- A fold that overwrites the accumulator on every predicate hit computes the
last matching element (or keeps the initial accumulator when none matches). -/
theorem foldl_keepLast (p : String → Bool) (l : List String) (acc : Option String) :
    l.foldl (fun a n => if p n then some n else a) acc =
      ((l.filter p).getLast?).or acc := by
  induction l using List.reverseRecOn with
  | nil => simp
  | append_singleton xs x ih =>
    rw [List.foldl_append, List.filter_append]
    by_cases hp : p x
    · simp [hp, List.getLast?_concat]
    · simp [hp, ih]

theorem if_or_step (c1 c2 : Bool) (n : String) (p : Option String) :
    (if c1 then some n else if c2 then some n else p) =
      (if c1 || c2 then some n else p) := by
  cases c1 <;> cases c2 <;> simp

/-- Claim C1: speaker resolution applies three ordered tiers — full name,
upper-cased full name, space-prefixed last token (plain then upper-cased) —
where a later tier runs only if every earlier tier matched nothing, and within
a tier the whole roster is scanned so that the last matching name wins; in
particular a text containing both "Anna Andersson" and "Erik Andersson"
resolves to the later roster entry "Erik Andersson". -/
theorem speaker_resolution_tiers :
    (∀ (names : List String) (txt : String),
      (∀ n ∈ names, pyWords n ≠ []) →
      resolve_speaker names txt =
        (((names.filter (fun n => strIn n txt)).getLast?).or
         (((names.filter (fun n => strIn (pyUpper n) txt)).getLast?).or
          ((names.filter (fun n =>
              strIn (" " ++ lastNameOf n) txt ||
              strIn (pyUpper (" " ++ lastNameOf n)) txt)).getLast?))))
    ∧ resolve_speaker ["Anna Andersson", "Erik Andersson"]
        "Anna Andersson och Erik Andersson" = some "Erik Andersson" := by
  constructor
  · intro names txt _h
    simp only [resolve_speaker, if_or_step]
    rw [foldl_keepLast, foldl_keepLast, foldl_keepLast]
    cases hA : (names.filter (fun n => strIn n txt)).getLast? with
    | some a => simp [Option.or]
    | none =>
      cases hB : (names.filter (fun n => strIn (pyUpper n) txt)).getLast? with
      | some b => simp [Option.or]
      | none => simp [Option.or_none]
  · decide

/-- Witness for C1 at a concrete roster and text. -/
theorem speaker_resolution_tiers_witness :
    resolve_speaker ["Anna Andersson", "Erik Ek"] "Herr Ek anförde" =
      ((((["Anna Andersson", "Erik Ek"] :
          List String).filter (fun n => strIn n "Herr Ek anförde")).getLast?).or
       ((((["Anna Andersson", "Erik Ek"] :
           List String).filter (fun n => strIn (pyUpper n) "Herr Ek anförde")).getLast?).or
        (((["Anna Andersson", "Erik Ek"] :
           List String).filter (fun n =>
             strIn (" " ++ lastNameOf n) "Herr Ek anförde" ||
             strIn (pyUpper (" " ++ lastNameOf n)) "Herr Ek anförde")).getLast?))) :=
  speaker_resolution_tiers.1 ["Anna Andersson", "Erik Ek"] "Herr Ek anförde" (by decide)

/-- Claim C7 counterexample: the source filters only null roster cells
(`mp_db[mp_db["name"].notnull()]`), not empty-string names, and in tier 1 the
empty string is a substring of every text, so a blank roster name is returned
as the resolved speaker here — refuting "a blank roster name can never be
returned as the resolved speaker". -/
theorem blank_name_resolved_counterexample :
    resolve_in_roster [some "Anna Andersson", some ""] "Anna Andersson talar"
      = some "" := by
  decide

/-- Claim C7 (amended): only roster entries whose name is absent (null) are
excluded before matching — a null entry never influences which speaker is
resolved; empty-string names are not filtered out. -/
theorem null_roster_entries_excluded
    (l1 l2 : List (Option String)) (txt : String) :
    resolve_in_roster (l1 ++ none :: l2) txt = resolve_in_roster (l1 ++ l2) txt := by
  simp [resolve_in_roster, List.filterMap_append, List.filterMap_cons]

/-- Letters of the regex class `[a-zA-ZåäöÅÄÖ ]` in `_is_metadata_block`. -/
def isLetterSpaceChar (c : Char) : Bool :=
  ('a' ≤ c && c ≤ 'z') || ('A' ≤ c && c ≤ 'Z') ||
  c = 'å' || c = 'ä' || c = 'ö' || c = 'Å' || c = 'Ä' || c = 'Ö' || c = ' '

/-- Length of `re.sub("[^a-zA-ZåäöÅÄÖ ]+", "", txt0)`: the number of
characters of `txt0` inside the class. -/
def letterSpaceCount (s : String) : Nat :=
  (s.toList.filter isLetterSpaceChar).length

/-- The noise heuristic `_is_metadata_block` (segmentation.py lines 17-33).
The float test `len1/len0 < 0.85` is rendered exactly as `100*len1 < 85*len0`:
for the lengths at which the test can matter (`len0 < 150`) no fraction
`len1/len0` lies between 17/20 and the double nearest to 0.85, so the IEEE
comparison and the rational comparison agree. -/
def is_metadata_block (txt0 : String) : Bool :=
  let len1 := letterSpaceCount txt0
  let len0 := txt0.length
  if len0 == 0 then false
  else if (pyStrip txt0).length == 0 then false
  else decide (100 * len1 < 85 * len0) && decide (len0 < 150)

/-- Claim C4: the noise classifier returns true iff the letter-or-space ratio
is strictly below 0.85 and the character count is strictly below 150, with
zero-length or whitespace-only strings classified not-noise; boundary cases:
a 149-character non-alphabetic block is noise, the same at 150 characters is
not, and a 10-character digit block is noise. -/
theorem noise_classifier_threshold :
    (∀ txt : String, is_metadata_block txt = true ↔
      (100 * letterSpaceCount txt < 85 * txt.length ∧ txt.length < 150 ∧
       txt.length ≠ 0 ∧ (pyStrip txt).length ≠ 0))
    ∧ (∀ txt : String, txt.length = 0 ∨ (pyStrip txt).length = 0 →
        is_metadata_block txt = false)
    ∧ is_metadata_block (String.mk (List.replicate 149 '!')) = true
    ∧ is_metadata_block (String.mk (List.replicate 150 '!')) = false
    ∧ is_metadata_block "0123456789" = true := by
  refine ⟨?_, ?_, by decide, by decide, by decide⟩
  · intro txt
    simp only [is_metadata_block]
    by_cases h0 : txt.length = 0
    · simp [h0]
    · by_cases h2 : (pyStrip txt).length = 0
      · simp [h0, h2]
      · simp [h0, h2]
  · intro txt h
    rcases h with h | h
    · simp [is_metadata_block, h]
    · by_cases h0 : txt.length = 0
      · simp [is_metadata_block, h0]
      · simp [is_metadata_block, h0, h]

/-- Witness for C4 at a concrete all-whitespace input. -/
theorem noise_classifier_threshold_witness :
    is_metadata_block "\n\n" = false :=
  noise_classifier_threshold.2.1 "\n\n" (Or.inr (by decide))

/-- Mask of 32 one bits. -/
def u32mask : Nat := 4294967295

/-- Truncation to a 32-bit word. -/
def u32 (n : Nat) : Nat := n % 4294967296

/-- Left rotation of a 32-bit word. -/
def rotl32 (x s : Nat) : Nat := (u32 (x <<< s)) ||| (x >>> (32 - s))

/-- MD5 round constants (RFC 1321). -/
def md5K : List Nat :=
  [0xd76aa478, 0xe8c7b756, 0x242070db, 0xc1bdceee,
   0xf57c0faf, 0x4787c62a, 0xa8304613, 0xfd469501,
   0x698098d8, 0x8b44f7af, 0xffff5bb1, 0x895cd7be,
   0x6b901122, 0xfd987193, 0xa679438e, 0x49b40821,
   0xf61e2562, 0xc040b340, 0x265e5a51, 0xe9b6c7aa,
   0xd62f105d, 0x02441453, 0xd8a1e681, 0xe7d3fbc8,
   0x21e1cde6, 0xc33707d6, 0xf4d50d87, 0x455a14ed,
   0xa9e3e905, 0xfcefa3f8, 0x676f02d9, 0x8d2a4c8a,
   0xfffa3942, 0x8771f681, 0x6d9d6122, 0xfde5380c,
   0xa4beea44, 0x4bdecfa9, 0xf6bb4b60, 0xbebfbc70,
   0x289b7ec6, 0xeaa127fa, 0xd4ef3085, 0x04881d05,
   0xd9d4d039, 0xe6db99e5, 0x1fa27cf8, 0xc4ac5665,
   0xf4292244, 0x432aff97, 0xab9423a7, 0xfc93a039,
   0x655b59c3, 0x8f0ccc92, 0xffeff47d, 0x85845dd1,
   0x6fa87e4f, 0xfe2ce6e0, 0xa3014314, 0x4e0811a1,
   0xf7537e82, 0xbd3af235, 0x2ad7d2bb, 0xeb86d391]

/-- MD5 per-round left-rotation amounts. -/
def md5S : List Nat :=
  [7, 12, 17, 22, 7, 12, 17, 22, 7, 12, 17, 22, 7, 12, 17, 22,
   5, 9, 14, 20, 5, 9, 14, 20, 5, 9, 14, 20, 5, 9, 14, 20,
   4, 11, 16, 23, 4, 11, 16, 23, 4, 11, 16, 23, 4, 11, 16, 23,
   6, 10, 15, 21, 6, 10, 15, 21, 6, 10, 15, 21, 6, 10, 15, 21]

def md5F (b c d : Nat) : Nat := (b &&& c) ||| ((b ^^^ u32mask) &&& d)
def md5G (b c d : Nat) : Nat := (d &&& b) ||| ((d ^^^ u32mask) &&& c)
def md5H (b c d : Nat) : Nat := b ^^^ c ^^^ d
def md5I (b c d : Nat) : Nat := c ^^^ (b ||| (d ^^^ u32mask))

/-- One 512-bit MD5 block update. -/
def md5Block (chunk : List Nat) (st : Nat × Nat × Nat × Nat) : Nat × Nat × Nat × Nat :=
  let M : Nat → Nat := fun j =>
    (chunk.getD (4 * j) 0) + ((chunk.getD (4 * j + 1) 0) <<< 8) +
    ((chunk.getD (4 * j + 2) 0) <<< 16) + ((chunk.getD (4 * j + 3) 0) <<< 24)
  match st with
  | (a0, b0, c0, d0) =>
    let final := (List.range 64).foldl (fun q i =>
      match q with
      | (A, B, C, D) =>
        let fg : Nat × Nat :=
          if i < 16 then (md5F B C D, i)
          else if i < 32 then (md5G B C D, (5 * i + 1) % 16)
          else if i < 48 then (md5H B C D, (3 * i + 5) % 16)
          else (md5I B C D, (7 * i) % 16)
        let F := u32 (fg.1 + A + md5K.getD i 0 + M fg.2)
        (D, u32 (B + rotl32 F (md5S.getD i 0)), B, C)) (a0, b0, c0, d0)
    match final with
    | (A, B, C, D) => (u32 (a0 + A), u32 (b0 + B), u32 (c0 + C), u32 (d0 + D))

/-- MD5 padding: a 0x80 byte, zeros to 56 mod 64, then the bit length as a
little-endian 64-bit integer. -/
def md5Pad (msg : List Nat) : List Nat :=
  let len := msg.length
  let r := (len + 1) % 64
  let z := (120 - r) % 64
  msg ++ [128] ++ List.replicate z 0 ++
    (List.range 8).map (fun i => ((len * 8) >>> (8 * i)) % 256)

/-- Iterate the block update over `k` consecutive 64-byte chunks. -/
def md5Blocks : Nat → List Nat → Nat × Nat × Nat × Nat → Nat × Nat × Nat × Nat
  | 0, _, st => st
  | k + 1, bytes, st => md5Blocks k (bytes.drop 64) (md5Block (bytes.take 64) st)

def hexDigitChar (n : Nat) : Char :=
  ("0123456789abcdef".toList).getD n '0'

def byteHexChars (b : Nat) : List Char := [hexDigitChar (b / 16), hexDigitChar (b % 16)]

def le32Bytes (w : Nat) : List Nat :=
  [w % 256, (w >>> 8) % 256, (w >>> 16) % 256, (w >>> 24) % 256]

/-- Lowercase hex digest of a byte sequence, as `hashlib.md5(...).hexdigest()`. -/
def md5hexBytes (msg : List Nat) : String :=
  let padded := md5Pad msg
  let st := md5Blocks (padded.length / 64) padded
    (1732584193, 4023233417, 2562383102, 271733878)
  match st with
  | (a, b, c, d) =>
    String.mk (((le32Bytes a ++ le32Bytes b ++ le32Bytes c ++ le32Bytes d).map
      byteHexChars).foldr (fun x acc => x ++ acc) [])

/-- UTF-8 encoding of one character, as `str.encode("utf-8")` produces. -/
def utf8enc (c : Char) : List Nat :=
  let n := c.toNat
  if n < 128 then [n]
  else if n < 2048 then [192 ||| (n >>> 6), 128 ||| (n &&& 63)]
  else if n < 65536 then
    [224 ||| (n >>> 12), 128 ||| ((n >>> 6) &&& 63), 128 ||| (n &&& 63)]
  else
    [240 ||| (n >>> 18), 128 ||| ((n >>> 12) &&& 63),
     128 ||| ((n >>> 6) &&& 63), 128 ||| (n &&& 63)]

def utf8Bytes (s : String) : List Nat :=
  s.toList.foldr (fun c acc => utf8enc c ++ acc) []

def md5hex (s : String) : String := md5hexBytes (utf8Bytes s)

/-- Line 86 of `find_instances_xml`:
`hashlib.md5(pattern.encode("utf-8")).hexdigest()[:16]`. -/
def pattern_digest (pattern : String) : String :=
  String.mk ((md5hex pattern).toList.take 16)

/-- Sanity anchor for the MD5 model: the digest of the empty byte string. -/
theorem md5hex_empty : md5hex "" = "d41d8cd98f00b204e9800998ecf8427e" := by decide

/-- Claim C6: the pattern identity (line 86: the truncated MD5 hex digest of
the pattern expression) is a pure function of the pattern text alone — equal
expression strings yield equal identities, within one run or across runs, so
instances from different runs over the same pattern set can be joined. -/
theorem pattern_digest_pure :
    ∀ p1 p2 : String, p1 = p2 → pattern_digest p1 = pattern_digest p2 := by
  intro p1 p2 h
  rw [h]

/-- Witness for C6 at a concrete pattern string. -/
theorem pattern_digest_pure_witness :
    pattern_digest "Herr talman" = pattern_digest "Herr talman" :=
  pattern_digest_pure "Herr talman" "Herr talman" rfl

/-- XML whitespace as collapsed by XPath `normalize-space()`. -/
def isXmlWhite (c : Char) : Bool :=
  c = ' ' || c = '\t' || c = '\n' || c = '\r'

/-- Emptiness test of the pruning pass (lines 181-184):
`not element.xpath("normalize-space()")` — the normalize-space string of a
text is empty iff every character of that text is XML whitespace. -/
def normSpaceIsEmpty (s : String) : Bool := s.toList.all isXmlWhite

/-- One row of the instance table consumed by `create_tei`
(columns `package_id`, `pattern`, `txt`, `person`; a null resolved speaker is
`none`). -/
structure MatchRow where
  package_id : String
  pattern : String
  txt : String
  person : Option String
deriving DecidableEq

/-- Lines 238-244: a non-string `person` cell is demoted to `None` and the new
turn is then labeled `"UNK"`; a string cell becomes the `who` label. -/
def speakerLabel (person : Option String) : String :=
  match person with
  | some s => s
  | none => "UNK"

/-- One `u` element of the body: its `who` label and its `seg` texts. -/
structure Turn where
  who : String
  segs : List String
deriving DecidableEq

/-- Appending a `seg` to the most recently created `u` element
(line 247-248: `seg` goes under the current value of the variable `u`,
which is always the last `u` appended to `body_div`). -/
def appendSegLast : List Turn → String → List Turn
  | [], _ => []
  | [t], s => [⟨t.who, t.segs ++ [s]⟩]
  | t :: t2 :: ts, s => t :: appendSegLast (t2 :: ts) s

/-- Lines 230-248 of `create_tei`, one paragraph (`textblock.text`): when the
text is non-empty, every instance row is scanned in table order with no break,
each matching row appends a fresh `u` element labeled from its `person` cell,
and the paragraph text is then appended as a `seg` to the current `u`. -/
def stepPara (rows : List MatchRow) (turns : List Turn) (paragraph : String) : List Turn :=
  if paragraph == "" then turns
  else
    let turns := rows.foldl (fun ts row =>
      if strIn row.txt paragraph then ts ++ [⟨speakerLabel row.person, []⟩] else ts) turns
    appendSegLast turns paragraph

/-- Python `"\n".join(strs)`. -/
def pyJoinNL : List String → String
  | [] => ""
  | [s] => s
  | s :: rest => s ++ "\n" ++ pyJoinNL rest

/-- Lines 218-248 of `create_tei`: the implicit leading `u` labeled `"UNK"`,
then every content block in document order (skipped when its aggregated text
is empty), then every paragraph of the block. -/
def create_tei_body (rows : List MatchRow) (doc : List (List String)) : List Turn :=
  doc.foldl (fun turns block =>
    if pyJoinNL block == "" then turns
    else block.foldl (stepPara rows) turns)
    [⟨"UNK", []⟩]

/-- Effect of the pruning pass of `create_parlaclarin` (lines 181-184) on the
body turns: a `seg` whose text is whitespace-only has empty normalize-space and
is removed, and a `u` whose segments are all whitespace-only (in particular a
turn that never received a segment) has empty normalize-space and is removed.
In the bodies covered by the theorem below every element the pass removes
(a `seg`-less `u`) is childless, so the early-stopping mutating iteration of
the pass completes and acts as exactly this filter. -/
def pruneTurns (turns : List Turn) : List Turn :=
  (turns.map (fun t => ⟨t.who, t.segs.filter (fun s => !(normSpaceIsEmpty s))⟩)).filter
    (fun t => !(t.segs.isEmpty))

/-- A fold that appends a fresh turn for every matching row extends the
accumulator with one turn per matching row, in table order. -/
theorem foldl_matchTurns (rows : List MatchRow) (init : List Turn) (p : String) :
    rows.foldl (fun ts row =>
        if strIn row.txt p then ts ++ [⟨speakerLabel row.person, []⟩] else ts) init =
      init ++ (rows.filter (fun row => strIn row.txt p)).map
        (fun row => ⟨speakerLabel row.person, []⟩) := by
  induction rows generalizing init with
  | nil => simp
  | cons r rows ih =>
    by_cases hr : strIn r.txt p
    · simp [hr, ih, List.filter_cons, List.append_assoc]
    · simp [hr, ih, List.filter_cons]

theorem appendSegLast_concat (l : List Turn) (t : Turn) (p : String) :
    appendSegLast (l ++ [t]) p = l ++ [⟨t.who, t.segs ++ [p]⟩] := by
  induction l with
  | nil => simp [appendSegLast]
  | cons a l ih =>
    cases l with
    | nil => simp [appendSegLast]
    | cons b l => simpa [appendSegLast] using ih

theorem appendSegLast_getLast (l : List Turn) (p : String) :
    (appendSegLast l p).getLast? =
      l.getLast?.map (fun t => ⟨t.who, t.segs ++ [p]⟩) := by
  induction l with
  | nil => simp [appendSegLast]
  | cons a l ih =>
    cases l with
    | nil => simp [appendSegLast]
    | cons b l2 =>
      simp only [appendSegLast]
      cases hx : appendSegLast (b :: l2) p with
      | nil =>
        exfalso
        obtain ⟨t, ht⟩ : ∃ t, (b :: l2).getLast? = some t := by
          cases hgl : (b :: l2).getLast? with
          | none => simp [List.getLast?_eq_none_iff] at hgl
          | some t => exact ⟨t, rfl⟩
        rw [ht, hx] at ih
        simp at ih
      | cons y ys =>
        rw [hx] at ih
        rw [List.getLast?_cons_cons, ih, List.getLast?_cons_cons]

/-- Claim C2: for a paragraph with non-empty text, every instance row is
scanned in table order with no early exit (each matching row appends a
fresh turn), the turn that receives the paragraph is labeled with the resolved
speaker of the last matching row, and a non-string speaker cell yields the
label "UNK" instead of being surfaced. -/
theorem paragraph_attribution_last_match :
    ∀ (rows : List MatchRow) (turns : List Turn) (paragraph : String) (r : MatchRow),
      paragraph ≠ "" →
      (rows.filter (fun q => strIn q.txt paragraph)).getLast? = some r →
      stepPara rows turns paragraph =
        appendSegLast
          (turns ++ (rows.filter (fun q => strIn q.txt paragraph)).map
            (fun q => ⟨speakerLabel q.person, []⟩)) paragraph
      ∧ (stepPara rows turns paragraph).getLast? =
          some ⟨(match r.person with
                 | some s => s
                 | none => "UNK"), [paragraph]⟩ := by
  intro rows turns paragraph r hp hlast
  have hne : (paragraph == "") = false := by
    rw [beq_eq_false_iff_ne]
    exact hp
  have h1 : stepPara rows turns paragraph =
      appendSegLast
        (turns ++ (rows.filter (fun q => strIn q.txt paragraph)).map
          (fun q => ⟨speakerLabel q.person, []⟩)) paragraph := by
    simp only [stepPara, hne, Bool.false_eq_true, if_false]
    rw [foldl_matchTurns]
  refine ⟨h1, ?_⟩
  obtain ⟨front, hfront⟩ := List.getLast?_eq_some_iff.mp hlast
  rw [h1, hfront, List.map_append, List.map_cons, List.map_nil, ← List.append_assoc,
    appendSegLast_concat, List.getLast?_concat]
  cases hr : r.person <;> simp [speakerLabel, hr]

/-- Witness for C2 at a concrete row, turn list and paragraph. -/
theorem paragraph_attribution_last_match_witness :
    stepPara [⟨"p", "d", "Anna", some "Anna Andersson"⟩] [⟨"UNK", []⟩] "Anna talar" =
        appendSegLast
          ([⟨"UNK", []⟩] ++
            (([⟨"p", "d", "Anna", some "Anna Andersson"⟩] : List MatchRow).filter
              (fun q => strIn q.txt "Anna talar")).map
              (fun q => ⟨speakerLabel q.person, []⟩)) "Anna talar"
      ∧ (stepPara [⟨"p", "d", "Anna", some "Anna Andersson"⟩]
            [⟨"UNK", []⟩] "Anna talar").getLast? =
          some ⟨(match (⟨"p", "d", "Anna", some "Anna Andersson"⟩ : MatchRow).person with
                 | some s => s
                 | none => "UNK"), ["Anna talar"]⟩ :=
  paragraph_attribution_last_match
    [⟨"p", "d", "Anna", some "Anna Andersson"⟩] [⟨"UNK", []⟩] "Anna talar"
    ⟨"p", "d", "Anna", some "Anna Andersson"⟩ (by decide) (by decide)

theorem normSpace_ne_empty {s : String} (h : normSpaceIsEmpty s = false) : s ≠ "" := by
  intro he
  rw [he] at h
  have ht : normSpaceIsEmpty "" = true := by decide
  rw [ht] at h
  cases h

theorem pyJoinNL_ne_empty (s : String) (rest : List String) (h : s ≠ "") :
    pyJoinNL (s :: rest) ≠ "" := by
  cases rest with
  | nil => simpa [pyJoinNL]
  | cons b l =>
    simp only [pyJoinNL]
    intro hc
    have hlen := congrArg String.length hc
    simp only [String.length_append] at hlen
    have h1 : ("\n" : String).length = 1 := by decide
    have h0 : ("" : String).length = 0 := by decide
    omega

theorem stepPara_no_match (rows : List MatchRow) (l : List Turn) (t : Turn) (p : String)
    (hp : p ≠ "") (hno : ∀ q ∈ rows, strIn q.txt p = false) :
    stepPara rows (l ++ [t]) p = l ++ [⟨t.who, t.segs ++ [p]⟩] := by
  have hne : (p == "") = false := by
    rw [beq_eq_false_iff_ne]
    exact hp
  simp only [stepPara, hne, Bool.false_eq_true, if_false]
  rw [foldl_matchTurns]
  have hfil : rows.filter (fun q => strIn q.txt p) = [] := by
    rw [List.filter_eq_nil_iff]
    intro q hq
    simp [hno q hq]
  rw [hfil]
  simp [appendSegLast_concat]

theorem pruneTurns_append (a b : List Turn) :
    pruneTurns (a ++ b) = pruneTurns a ++ pruneTurns b := by
  simp [pruneTurns]

theorem pruneTurns_newTurns (front : List MatchRow) :
    pruneTurns (front.map (fun q => (⟨speakerLabel q.person, []⟩ : Turn))) = [] := by
  induction front with
  | nil => rfl
  | cons q front _ih => simp [pruneTurns]

/-- Claim C3: in a six-paragraph document whose instance rows all match text of
the first paragraph and none of the remaining five paragraphs, assembly
followed by the pruning pass yields exactly one speech turn, labeled with the
(non-"UNK") resolved name of the last instance row, containing all six
paragraph texts as its six ordered segments: a turn persists across paragraphs
until the next attribution-bearing paragraph. -/
theorem turn_continuity :
    ∀ (rows : List MatchRow) (p1 p2 p3 p4 p5 p6 : String) (r : MatchRow) (nm : String),
      rows.getLast? = some r →
      r.person = some nm →
      nm ≠ "UNK" →
      (∀ q ∈ rows, strIn q.txt p1 = true) →
      (∀ q ∈ rows, strIn q.txt p2 = false) →
      (∀ q ∈ rows, strIn q.txt p3 = false) →
      (∀ q ∈ rows, strIn q.txt p4 = false) →
      (∀ q ∈ rows, strIn q.txt p5 = false) →
      (∀ q ∈ rows, strIn q.txt p6 = false) →
      normSpaceIsEmpty p1 = false → normSpaceIsEmpty p2 = false →
      normSpaceIsEmpty p3 = false → normSpaceIsEmpty p4 = false →
      normSpaceIsEmpty p5 = false → normSpaceIsEmpty p6 = false →
      pruneTurns (create_tei_body rows [[p1, p2, p3, p4, p5, p6]]) =
        [⟨nm, [p1, p2, p3, p4, p5, p6]⟩] := by
  intro rows p1 p2 p3 p4 p5 p6 r nm hlast hperson _hnm hm1 hm2 hm3 hm4 hm5 hm6
    hw1 hw2 hw3 hw4 hw5 hw6
  have hp1 : p1 ≠ "" := normSpace_ne_empty hw1
  have hp2 : p2 ≠ "" := normSpace_ne_empty hw2
  have hp3 : p3 ≠ "" := normSpace_ne_empty hw3
  have hp4 : p4 ≠ "" := normSpace_ne_empty hw4
  have hp5 : p5 ≠ "" := normSpace_ne_empty hw5
  have hp6 : p6 ≠ "" := normSpace_ne_empty hw6
  have hblock : (pyJoinNL [p1, p2, p3, p4, p5, p6] == "") = false := by
    rw [beq_eq_false_iff_ne]
    exact pyJoinNL_ne_empty p1 _ hp1
  obtain ⟨front, hfront⟩ := List.getLast?_eq_some_iff.mp hlast
  have hfil1 : rows.filter (fun q => strIn q.txt p1) = rows := by
    rw [List.filter_eq_self]
    intro q hq
    simpa using hm1 q hq
  have e1 : stepPara rows [⟨"UNK", []⟩] p1 =
      ([(⟨"UNK", []⟩ : Turn)] ++
        front.map (fun q => (⟨speakerLabel q.person, []⟩ : Turn))) ++ [⟨nm, [p1]⟩] := by
    have hne : (p1 == "") = false := by
      rw [beq_eq_false_iff_ne]
      exact hp1
    simp only [stepPara, hne, Bool.false_eq_true, if_false]
    rw [foldl_matchTurns, hfil1, hfront, List.map_append, List.map_cons, List.map_nil,
      ← List.append_assoc, appendSegLast_concat]
    simp [speakerLabel, hperson]
  have hpT : pruneTurns ([(⟨"UNK", []⟩ : Turn)] ++
      front.map (fun q => (⟨speakerLabel q.person, []⟩ : Turn))) = [] := by
    rw [pruneTurns_append, pruneTurns_newTurns]
    simp [pruneTurns]
  generalize hT : [(⟨"UNK", []⟩ : Turn)] ++
      front.map (fun q => (⟨speakerLabel q.person, []⟩ : Turn)) = T at e1 hpT
  have e2 : stepPara rows (T ++ [⟨nm, [p1]⟩]) p2 = T ++ [⟨nm, [p1, p2]⟩] := by
    simpa using stepPara_no_match rows T ⟨nm, [p1]⟩ p2 hp2 hm2
  have e3 : stepPara rows (T ++ [⟨nm, [p1, p2]⟩]) p3 = T ++ [⟨nm, [p1, p2, p3]⟩] := by
    simpa using stepPara_no_match rows T ⟨nm, [p1, p2]⟩ p3 hp3 hm3
  have e4 : stepPara rows (T ++ [⟨nm, [p1, p2, p3]⟩]) p4 = T ++ [⟨nm, [p1, p2, p3, p4]⟩] := by
    simpa using stepPara_no_match rows T ⟨nm, [p1, p2, p3]⟩ p4 hp4 hm4
  have e5 : stepPara rows (T ++ [⟨nm, [p1, p2, p3, p4]⟩]) p5 =
      T ++ [⟨nm, [p1, p2, p3, p4, p5]⟩] := by
    simpa using stepPara_no_match rows T ⟨nm, [p1, p2, p3, p4]⟩ p5 hp5 hm5
  have e6 : stepPara rows (T ++ [⟨nm, [p1, p2, p3, p4, p5]⟩]) p6 =
      T ++ [⟨nm, [p1, p2, p3, p4, p5, p6]⟩] := by
    simpa using stepPara_no_match rows T ⟨nm, [p1, p2, p3, p4, p5]⟩ p6 hp6 hm6
  have ebody : create_tei_body rows [[p1, p2, p3, p4, p5, p6]] =
      T ++ [⟨nm, [p1, p2, p3, p4, p5, p6]⟩] := by
    simp only [create_tei_body, List.foldl_cons, List.foldl_nil, hblock,
      Bool.false_eq_true, if_false]
    rw [e1, e2, e3, e4, e5, e6]
  rw [ebody, pruneTurns_append, hpT]
  simp [pruneTurns, hw1, hw2, hw3, hw4, hw5, hw6]

/-- Witness for C3 at a concrete one-row instance table and six paragraphs. -/
theorem turn_continuity_witness :
    pruneTurns (create_tei_body [⟨"p", "d", "Anna", some "Anna Andersson"⟩]
        [["Anna talar", "b", "c", "d", "e", "f"]]) =
      [⟨"Anna Andersson", ["Anna talar", "b", "c", "d", "e", "f"]⟩] :=
  turn_continuity [⟨"p", "d", "Anna", some "Anna Andersson"⟩]
    "Anna talar" "b" "c" "d" "e" "f"
    ⟨"p", "d", "Anna", some "Anna Andersson"⟩ "Anna Andersson"
    (by decide) (by decide) (by decide) (by decide) (by decide) (by decide)
    (by decide) (by decide) (by decide) (by decide) (by decide) (by decide)
    (by decide) (by decide) (by decide)

/-- An lxml element: tag, attributes, own text, children (tail text is not
used by the generating code, so it is not modelled). -/
inductive XTree : Type where
  | node (tag : String) (attrs : List (String × String)) (txt : String) (children : List XTree)

mutual
/-- Concatenated text content of an element and its descendants — the string
whose normalize-space the pruning pass tests. -/
def subtreeText : XTree → String
  | .node _ _ t cs => t ++ subtreeTextL cs
def subtreeTextL : List XTree → String
  | [] => ""
  | c :: cs => subtreeText c ++ subtreeTextL cs
end

mutual
/-- Complete empty-element removal: every element with empty normalize-space
content is dropped, recursively.  This is what one sweep of the loop of lines
181-184 achieves exactly when no removed element has element children (proved
as `iterSiblings_eq_pruneList`); the faithful model of the mutating loop
itself, with lxml's precomputed-successor iteration, is `iterPass` below. -/
def prune : XTree → XTree
  | .node tag attrs t cs => .node tag attrs t (pruneList cs)
def pruneList : List XTree → List XTree
  | [] => []
  | c :: cs =>
    if normSpaceIsEmpty (subtreeText c) then pruneList cs
    else prune c :: pruneList cs
end

mutual
/-- All proper descendants of an element (the elements the pass may remove). -/
def descs : XTree → List XTree
  | .node _ _ _ cs => descsL cs
def descsL : List XTree → List XTree
  | [] => []
  | c :: cs => c :: (descs c ++ descsL cs)
end

mutual
/-- Whether some element of the tree carries the given tag. -/
def containsTag (tag : String) : XTree → Bool
  | .node t _ _ cs => t == tag || containsTagL tag cs
def containsTagL (tag : String) : List XTree → Bool
  | [] => false
  | c :: cs => containsTag tag c || containsTagL tag cs
end

mutual
/-- Text of the first element carrying the given tag, in document order. -/
def findTagText (tag : String) : XTree → Option String
  | .node t _ txt cs => if t == tag then some txt else findTagTextL tag cs
def findTagTextL (tag : String) : List XTree → Option String
  | [] => none
  | c :: cs =>
    match findTagText tag c with
    | some s => some s
    | none => findTagTextL tag cs
end

mutual
/-- Faithful model of the loop of lines 181-184 over one kept element's
subtree.  lxml's depth-first iterator computes the successor of the current
element when it yields it, before the loop body removes it: a removed empty
element that is childless is skipped and iteration continues at its
precomputed next sibling, but a removed empty element with element children
makes the iterator descend into the detached subtree (where the removals have
no effect on the result tree) and dead-end at the detached root's missing
parent, ending the whole pass — every element after it is left untouched.
Returns the processed children and whether the pass was ended. -/
def iterElem : XTree → XTree × Bool
  | .node tag attrs txt cs =>
    let r := iterSiblings cs
    (.node tag attrs txt r.1, r.2)
def iterSiblings : List XTree → List XTree × Bool
  | [] => ([], false)
  | c :: rest =>
    if normSpaceIsEmpty (subtreeText c) then
      match c with
      | .node _ _ _ [] => iterSiblings rest
      | .node _ _ _ (_ :: _) => (rest, true)
    else
      let rc := iterElem c
      if rc.2 then (rc.1 :: rest, true)
      else
        let rr := iterSiblings rest
        (rc.1 :: rr.1, rr.2)
end

/-- The whole pass of lines 181-184 from the root.  The root is yielded
first; when its own normalize-space content is empty the body evaluates
`xml_element.getparent().remove(...)` with `getparent()` returning `None`,
raising AttributeError — modelled as `none`. -/
def iterPass (t : XTree) : Option XTree :=
  if normSpaceIsEmpty (subtreeText t) then none
  else some (iterElem t).1

mutual
/-- Every element with empty normalize-space content inside the tree is
childless — the condition under which the early-stopping iteration of
lines 181-184 completes and removes every empty element. -/
def noEmptyWithChildren : XTree → Bool
  | .node _ _ _ cs => noEmptyWithChildrenL cs
def noEmptyWithChildrenL : List XTree → Bool
  | [] => true
  | c :: cs =>
    (if normSpaceIsEmpty (subtreeText c) then
        (match c with | .node _ _ _ cs0 => cs0.isEmpty)
      else noEmptyWithChildren c) && noEmptyWithChildrenL cs
end

theorem normSpaceIsEmpty_append (s t : String) :
    normSpaceIsEmpty (s ++ t) = (normSpaceIsEmpty s && normSpaceIsEmpty t) := by
  simp [normSpaceIsEmpty, String.toList, String.data_append]

mutual
theorem prune_preserves_empty (t : XTree) :
    normSpaceIsEmpty (subtreeText (prune t)) = normSpaceIsEmpty (subtreeText t) := by
  match t with
  | .node tag attrs txt cs =>
    simp only [prune, subtreeText, normSpaceIsEmpty_append, prune_preserves_emptyL cs]
theorem prune_preserves_emptyL (cs : List XTree) :
    normSpaceIsEmpty (subtreeTextL (pruneList cs)) = normSpaceIsEmpty (subtreeTextL cs) := by
  match cs with
  | [] => rfl
  | c :: cs =>
    by_cases hc : normSpaceIsEmpty (subtreeText c) = true
    · simp only [pruneList, hc, if_true, subtreeTextL, normSpaceIsEmpty_append,
        prune_preserves_emptyL cs, hc, Bool.true_and]
    · simp only [pruneList, hc, if_false, subtreeTextL, normSpaceIsEmpty_append,
        prune_preserves_empty c, prune_preserves_emptyL cs]
end

mutual
theorem prune_idem (t : XTree) : prune (prune t) = prune t := by
  match t with
  | .node tag attrs txt cs =>
    simp only [prune, pruneList_idem cs]
theorem pruneList_idem (cs : List XTree) : pruneList (pruneList cs) = pruneList cs := by
  match cs with
  | [] => rfl
  | c :: cs =>
    by_cases hc : normSpaceIsEmpty (subtreeText c) = true
    · simp only [pruneList, hc, if_true, pruneList_idem cs]
    · simp only [pruneList, hc, if_false, prune_preserves_empty c, prune_idem c,
        pruneList_idem cs]
end

mutual
theorem descs_text_allWhite (t : XTree) (c : XTree) (hc : c ∈ descs t)
    (h : normSpaceIsEmpty (subtreeText t) = true) :
    normSpaceIsEmpty (subtreeText c) = true := by
  match t with
  | .node tag attrs txt cs =>
    simp only [subtreeText, normSpaceIsEmpty_append, Bool.and_eq_true] at h
    exact descs_text_allWhiteL cs c (by simpa [descs] using hc) h.2
theorem descs_text_allWhiteL (cs : List XTree) (c : XTree) (hc : c ∈ descsL cs)
    (h : normSpaceIsEmpty (subtreeTextL cs) = true) :
    normSpaceIsEmpty (subtreeText c) = true := by
  match cs with
  | [] => simp [descsL] at hc
  | c0 :: cs =>
    simp only [subtreeTextL, normSpaceIsEmpty_append, Bool.and_eq_true] at h
    simp only [descsL, List.mem_cons, List.mem_append] at hc
    rcases hc with hc | hc | hc
    · rw [hc]; exact h.1
    · exact descs_text_allWhite c0 c hc h.1
    · exact descs_text_allWhiteL cs c hc h.2
end

mutual
theorem prune_descs_nonempty (t : XTree) (c : XTree) (hc : c ∈ descs (prune t)) :
    normSpaceIsEmpty (subtreeText c) = false := by
  match t with
  | .node tag attrs txt cs =>
    exact prune_descs_nonemptyL cs c (by simpa [prune, descs] using hc)
theorem prune_descs_nonemptyL (cs : List XTree) (c : XTree)
    (hc : c ∈ descsL (pruneList cs)) :
    normSpaceIsEmpty (subtreeText c) = false := by
  match cs with
  | [] => simp [pruneList, descsL] at hc
  | c0 :: cs =>
    by_cases h0 : normSpaceIsEmpty (subtreeText c0) = true
    · rw [pruneList, if_pos h0] at hc
      exact prune_descs_nonemptyL cs c hc
    · rw [pruneList, if_neg h0] at hc
      simp only [descsL, List.mem_cons, List.mem_append] at hc
      rcases hc with hc | hc | hc
      · rw [hc, prune_preserves_empty c0]
        exact Bool.eq_false_iff.mpr h0
      · exact prune_descs_nonempty c0 c hc
      · exact prune_descs_nonemptyL cs c hc
end

mutual
theorem nonempty_desc_kept (t : XTree) (c : XTree) (hc : c ∈ descs t)
    (hne : normSpaceIsEmpty (subtreeText c) = false) :
    prune c ∈ descs (prune t) := by
  match t with
  | .node tag attrs txt cs =>
    simp only [descs] at hc
    simpa [prune, descs] using nonempty_desc_keptL cs c hc hne
theorem nonempty_desc_keptL (cs : List XTree) (c : XTree) (hc : c ∈ descsL cs)
    (hne : normSpaceIsEmpty (subtreeText c) = false) :
    prune c ∈ descsL (pruneList cs) := by
  match cs with
  | [] => simp [descsL] at hc
  | c0 :: cs =>
    simp only [descsL, List.mem_cons, List.mem_append] at hc
    rcases hc with hc | hc | hc
    · have h0 : normSpaceIsEmpty (subtreeText c0) = false := by rw [← hc]; exact hne
      rw [pruneList, if_neg (by simp [h0])]
      simp [descsL, hc]
    · have h0 : normSpaceIsEmpty (subtreeText c0) = false := by
        cases hq : normSpaceIsEmpty (subtreeText c0) with
        | false => rfl
        | true => rw [descs_text_allWhite c0 c hc hq] at hne; cases hne
      rw [pruneList, if_neg (by simp [h0])]
      simp only [descsL, List.mem_cons, List.mem_append]
      exact Or.inr (Or.inl (nonempty_desc_kept c0 c hc hne))
    · by_cases h0 : normSpaceIsEmpty (subtreeText c0) = true
      · rw [pruneList, if_pos h0]
        exact nonempty_desc_keptL cs c hc hne
      · rw [pruneList, if_neg h0]
        simp only [descsL, List.mem_cons, List.mem_append]
        exact Or.inr (Or.inr (nonempty_desc_keptL cs c hc hne))
end

mutual
theorem iterElem_eq_prune (t : XTree) (h : noEmptyWithChildren t = true) :
    iterElem t = (prune t, false) := by
  match t with
  | .node tag attrs txt cs =>
    have hl := iterSiblings_eq_pruneList cs (by simpa [noEmptyWithChildren] using h)
    simp [iterElem, prune, hl]
theorem iterSiblings_eq_pruneList (cs : List XTree) (h : noEmptyWithChildrenL cs = true) :
    iterSiblings cs = (pruneList cs, false) := by
  match cs with
  | [] => rfl
  | c :: rest =>
    rw [noEmptyWithChildrenL.eq_def] at h
    simp only [Bool.and_eq_true] at h
    have h1 := h.1
    by_cases hc : normSpaceIsEmpty (subtreeText c) = true
    · rw [if_pos hc] at h1
      cases c with
      | node t2 a2 x2 cs0 =>
        cases cs0 with
        | nil =>
          simp [iterSiblings, pruneList, hc, iterSiblings_eq_pruneList rest h.2]
        | cons d ds => simp at h1
    · rw [if_neg hc] at h1
      have he := iterElem_eq_prune c h1
      simp [iterSiblings, pruneList, hc, he, iterSiblings_eq_pruneList rest h.2]
end

mutual
theorem noEmptyWithChildren_of_nonempty (t : XTree)
    (h : ∀ c ∈ descs t, normSpaceIsEmpty (subtreeText c) = false) :
    noEmptyWithChildren t = true := by
  match t with
  | .node tag attrs txt cs =>
    exact noEmptyWithChildrenL_of_nonempty cs (by simpa [descs] using h)
theorem noEmptyWithChildrenL_of_nonempty (cs : List XTree)
    (h : ∀ c ∈ descsL cs, normSpaceIsEmpty (subtreeText c) = false) :
    noEmptyWithChildrenL cs = true := by
  match cs with
  | [] => rfl
  | c :: rest =>
    have hc : normSpaceIsEmpty (subtreeText c) = false :=
      h c (by simp only [descsL]; exact List.mem_cons_self _ _)
    have hrec : noEmptyWithChildren c = true :=
      noEmptyWithChildren_of_nonempty c (fun d hd =>
        h d (by
          simp only [descsL]
          exact List.mem_cons_of_mem _ (List.mem_append_left _ hd)))
    have hrest : noEmptyWithChildrenL rest = true :=
      noEmptyWithChildrenL_of_nonempty rest (fun d hd =>
        h d (by
          simp only [descsL]
          exact List.mem_cons_of_mem _ (List.mem_append_right _ hd)))
    simp [noEmptyWithChildrenL, hc, hrec, hrest]
end

/-- Claim C5 counterexample: the pass of lines 181-184 is not idempotent.
Here the element `a` is empty and has an element child, so the iterator's
precomputed successor leads into the detached subtree of `a` and the pass
stops there: the empty element `c` survives the first run and is removed only
by the second run — refuting "running the pass a second time on the result of
the first pass removes no element". -/
theorem pruning_pass_not_idempotent_counterexample :
    iterPass (XTree.node "r" [] "x"
        [XTree.node "a" [] "" [XTree.node "b" [] "" []], XTree.node "c" [] "" []]) =
      some (XTree.node "r" [] "x" [XTree.node "c" [] "" []])
    ∧ iterPass (XTree.node "r" [] "x" [XTree.node "c" [] "" []]) =
      some (XTree.node "r" [] "x" [])
    ∧ XTree.node "r" [] "x" [XTree.node "c" [] "" []] ≠ XTree.node "r" [] "x" [] := by
  refine ⟨rfl, rfl, ?_⟩
  intro hcontra
  simp at hcontra

/-- Claim C5 (amended): on a tree whose root has non-whitespace content and in
which every element with empty whitespace-normalized text content is
childless, the pass completes: one run removes exactly the empty elements
(the recursive filter `prune`), and a second run removes no element.  In
general the pass is not idempotent: removing an empty element that has
element children ends the iteration early, so empty elements after it survive
the first run and are removed by a second. -/
theorem pruning_pass_idempotent_on_childless_empties :
    ∀ t : XTree,
      normSpaceIsEmpty (subtreeText t) = false →
      noEmptyWithChildren t = true →
      iterPass t = some (prune t) ∧ iterPass (prune t) = some (prune t) := by
  intro t hroot h
  constructor
  · simp [iterPass, hroot, iterElem_eq_prune t h]
  · have h2 : noEmptyWithChildren (prune t) = true :=
      noEmptyWithChildren_of_nonempty (prune t) (fun c hc => prune_descs_nonempty t c hc)
    have hroot2 : normSpaceIsEmpty (subtreeText (prune t)) = false := by
      rw [prune_preserves_empty]
      exact hroot
    simp [iterPass, hroot2, iterElem_eq_prune (prune t) h2, prune_idem]

/-- Witness for the amended C5 at a concrete tree with one childless empty
element. -/
theorem pruning_pass_idempotent_on_childless_empties_witness :
    iterPass (XTree.node "r" [] "x" [XTree.node "c" [] "" []]) =
      some (prune (XTree.node "r" [] "x" [XTree.node "c" [] "" []]))
    ∧ iterPass (prune (XTree.node "r" [] "x" [XTree.node "c" [] "" []])) =
      some (prune (XTree.node "r" [] "x" [XTree.node "c" [] "" []])) :=
  pruning_pass_idempotent_on_childless_empties
    (XTree.node "r" [] "x" [XTree.node "c" [] "" []]) (by decide) (by decide)

/-- The metadata mapping, restricted to the keys the engine reads or writes
(`protocol`, `document_title`, `edition`, `authority`, `correction`, `date`,
`year`, `chamber`); an absent key is `none`. -/
structure MetaD where
  protocol : Option String
  document_title : Option String
  edition : Option String
  authority : Option String
  correction : Option String
  date : Option String
  year : Option Nat
  chamber : Option String
deriving DecidableEq

/-- `_pc_header` (segmentation.py lines 133-165): the TEI header element; an
editionStmt child is created only when the mapping has an "edition" key. -/
def pc_header (metadata : MetaD) : XTree :=
  .node "teiHeader" [] ""
    [.node "fileDesc" [] ""
      ([XTree.node "titleStmt" [] ""
          [.node "title" [] (metadata.document_title.getD "N/A") []]]
       ++ (if metadata.edition.isSome then
            [XTree.node "editionStmt" [] ""
              [.node "edition" [] (metadata.edition.getD "N/A") []]]
           else [])
       ++ [XTree.node "extent" [] "" [],
           .node "publicationStmt" [] ""
             [.node "authority" [] (metadata.authority.getD "N/A") []],
           .node "sourceDesc" [] ""
             [.node "bibl" [] ""
               [.node "title" [] (metadata.document_title.getD "N/A") []]]]),
     .node "encodingDesc" [] ""
       [.node "editorialDecl" [] ""
         [.node "correction" [] ""
           [.node "p" [] (metadata.correction.getD
              "No correction of source texts was performed.") []]]]]

/-- `create_parlaclarin` (lines 167-187) up to the final `tostring`: the
corpus root wraps the corpus header and the document trees, then the loop of
lines 181-184 runs over the tree (faithfully modelled by `iterPass`, with
lxml's precomputed-successor iteration and its early stop); `none` models the
AttributeError the loop raises when the root's own content is empty.  An
element occurs in the serialized output iff it survives the pass. -/
def create_parlaclarin (teis : List XTree) (metadata : MetaD) : Option XTree :=
  iterPass (.node "teiCorpus" [("xmlns", "http://www.tei-c.org/ns/1.0")] ""
    (pc_header metadata :: teis))

theorem containsTagL_ite (tag : String) (P : Prop) [Decidable P] (l1 l2 : List XTree) :
    containsTagL tag (if P then l1 else l2) =
      if P then containsTagL tag l1 else containsTagL tag l2 := by
  split <;> rfl

/-- Claim C8 counterexample: a metadata mapping that supplies an edition key
with empty value — the edition statement is emitted by the header builder but
has empty normalize-space content, so the pruning pass removes it (ending the
iteration there, since the blank edition child is attached to it) and the
serialized header contains no editionStmt element although an edition value is
present, refuting the claimed "if and only if". -/
theorem edition_statement_counterexample :
    (MetaD.mk none none (some "") none none none none none).edition.isSome = true
    ∧ (create_parlaclarin []
        (MetaD.mk none none (some "") none none none none none)).map
        (containsTag "editionStmt") = some false := by
  exact ⟨rfl, rfl⟩

/-- Claim C8 (amended): for a metadata mapping whose document-title text is
not whitespace-only (in particular whenever no title key is supplied and the
"N/A" default applies), serialization succeeds and the serialized corpus
header contains an edition statement element iff the mapping supplies an
edition value whose text is not whitespace-only; an edition key whose value is
blank is emitted by the header builder but removed again by the pruning pass.
The title restriction is needed because a blank title statement is an empty
element with a child: its removal ends the pass before the edition statement
is visited, and a blank edition statement can then survive. -/
theorem edition_statement_serialized (m : MetaD)
    (htitle : normSpaceIsEmpty (m.document_title.getD "N/A") = false) :
    ∃ T, create_parlaclarin [] m = some T ∧
      (containsTag "editionStmt" T = true ↔
        ∃ v, m.edition = some v ∧ normSpaceIsEmpty v = false) := by
  have hNA : normSpaceIsEmpty "" = true := by decide
  cases he : m.edition with
  | none =>
    by_cases hb1 : normSpaceIsEmpty (m.authority.getD "N/A") = true <;>
      by_cases hb2 : normSpaceIsEmpty
        (m.correction.getD "No correction of source texts was performed.") = true <;>
      simp [create_parlaclarin, pc_header, iterPass, iterElem, iterSiblings,
        containsTag, containsTagL, subtreeText, subtreeTextL, normSpaceIsEmpty_append,
        he, htitle, hb1, hb2, hNA]
  | some v =>
    cases hv : normSpaceIsEmpty v with
    | true =>
      by_cases hb1 : normSpaceIsEmpty (m.authority.getD "N/A") = true <;>
        by_cases hb2 : normSpaceIsEmpty
          (m.correction.getD "No correction of source texts was performed.") = true <;>
        simp [create_parlaclarin, pc_header, iterPass, iterElem, iterSiblings,
          containsTag, containsTagL, subtreeText, subtreeTextL, normSpaceIsEmpty_append,
          he, hv, htitle, hb1, hb2, hNA]
    | false =>
      by_cases hb1 : normSpaceIsEmpty (m.authority.getD "N/A") = true <;>
        by_cases hb2 : normSpaceIsEmpty
          (m.correction.getD "No correction of source texts was performed.") = true <;>
        simp [create_parlaclarin, pc_header, iterPass, iterElem, iterSiblings,
          containsTag, containsTagL, subtreeText, subtreeTextL, normSpaceIsEmpty_append,
          he, hv, htitle, hb1, hb2, hNA]

/-- Witness for C8 (amended) at a concrete mapping supplying edition "0.1.0". -/
theorem edition_statement_serialized_witness :
    ∃ T, create_parlaclarin []
        (MetaD.mk none none (some "0.1.0") none none none none none) = some T ∧
      (containsTag "editionStmt" T = true ↔
        ∃ v, (MetaD.mk none none (some "0.1.0") none none none none
          none).edition = some v ∧ normSpaceIsEmpty v = false) :=
  edition_statement_serialized
    (MetaD.mk none none (some "0.1.0") none none none none none) (by decide)

theorem findTagTextL_append (tag : String) (l1 l2 : List XTree) :
    findTagTextL tag (l1 ++ l2) =
      (match findTagTextL tag l1 with
       | some s => some s
       | none => findTagTextL tag l2) := by
  induction l1 with
  | nil => simp [findTagTextL]
  | cons c l1 ih =>
    simp only [List.cons_append, findTagTextL]
    cases findTagText tag c with
    | some s => rfl
    | none => simpa using ih

theorem findTagTextL_ite (tag : String) (P : Prop) [Decidable P] (l1 l2 : List XTree) :
    findTagTextL tag (if P then l1 else l2) =
      if P then findTagTextL tag l1 else findTagTextL tag l2 := by
  split <;> rfl

/-- `create_tei` (segmentation.py lines 189-250).  The mapping is deep-copied
(line 197); the copy is extended with the derived document title (line 201)
and, when no date key is present, a date synthesized from the year with
default year 2020 (lines 209-211); the preface carries the dated `docDate`
entry (line 213) and the body is assembled as in `create_tei_body`.  Reading
`metadata["protocol"]` (line 200) raises KeyError when the key is absent,
modelled as `none`. -/
def create_tei (doc : List (List String)) (metadata : MetaD) (rows : List MatchRow) :
    Option XTree :=
  match metadata.protocol with
  | none => none
  | some protocol_id =>
    let title := (((protocol_id.replace "_" " ").splitOn "-").headD "").replace "prot" "Protokoll"
    let m1 : MetaD := { metadata with document_title := some title }
    let documentHeader := pc_header m1
    let m2 : MetaD :=
      if m1.date.isNone then
        { m1 with date := some (toString (m1.year.getD 2020) ++ "-01-01") }
      else m1
    some (.node "TEI" [] ""
      [documentHeader,
       .node "text" [] ""
         [.node "front" [] ""
           [.node "div" [("type", "preface")] ""
             [.node "head" [] ((protocol_id.splitOn ".").headD "") [],
              .node "docDate" [("when", m2.date.getD "2020-01-01")]
                (m2.date.getD "2020-01-01") []]],
          .node "body" [] ""
            [.node "div" [] ""
              ((create_tei_body rows doc).map (fun t =>
                XTree.node "u" [("who", t.who)] ""
                  (t.segs.map (fun s => XTree.node "seg" [] s []))))]]])

/-- Claim C9: for a metadata mapping lacking a date field (and carrying the
protocol id, which document assembly unconditionally reads), assembly does not
fail: the document date is synthesized from the year field as "year-01-01",
falling back to the stated default year 2020 when the year is also absent, so
the assembled document carries a dated preface entry. -/
theorem date_fallback :
    ∀ (doc : List (List String)) (m : MetaD) (rows : List MatchRow) (pid : String),
      m.protocol = some pid →
      m.date = none →
      ∃ t, create_tei doc m rows = some t ∧
        findTagText "docDate" t = some (toString (m.year.getD 2020) ++ "-01-01") := by
  intro doc m rows pid hp hd
  simp only [create_tei, hp]
  refine ⟨_, rfl, ?_⟩
  simp [findTagText, findTagTextL, findTagTextL_append, findTagTextL_ite,
    pc_header, hd]

/-- Witness for C9 at a concrete mapping with a year and no date. -/
theorem date_fallback_witness :
    ∃ t, create_tei []
        (MetaD.mk (some "prot_1933__ak__1") none none none none none (some 1933) none)
        [] = some t ∧
      findTagText "docDate" t =
        some (toString
          ((MetaD.mk (some "prot_1933__ak__1") none none none none none (some 1933)
            none).year.getD 2020) ++ "-01-01") :=
  date_fallback []
    (MetaD.mk (some "prot_1933__ak__1") none none none none none (some 1933) none)
    [] "prot_1933__ak__1" rfl rfl

/-- Reference-level model of the metadata side effects of `create_tei`:
Python dicts live in a store of mappings addressed by index.  Line 197
(`metadata = copy.deepcopy(metadata)`) allocates a fresh address holding a
copy of the caller's mapping and rebinds the local name to it; the key
assignments of line 201 (`document_title`) and line 211 (`date`) write to that
fresh address only.  The result pairs the assembled tree with the post-call
store; when `metadata["protocol"]` raises, the store still holds the copy but
the caller's entry is untouched. -/
def create_tei_store (σ : List MetaD) (addr : Nat) (doc : List (List String))
    (rows : List MatchRow) : Option XTree × List MetaD :=
  match σ[addr]? with
  | none => (none, σ)
  | some m =>
    let addr1 := σ.length
    let σ1 := σ ++ [m]
    match m.protocol with
    | none => (none, σ1)
    | some protocol_id =>
      let title := (((protocol_id.replace "_" " ").splitOn "-").headD "").replace "prot" "Protokoll"
      let mt : MetaD := { m with document_title := some title }
      let σ2 := σ1.set addr1 mt
      let md : MetaD :=
        if mt.date.isNone then
          { mt with date := some (toString (mt.year.getD 2020) ++ "-01-01") }
        else mt
      let σ3 := σ2.set addr1 md
      (create_tei doc m rows, σ3)

/-- Claim C10: document assembly never mutates its caller's metadata mapping —
after `create_tei` returns, the mapping at the caller's address is exactly the
one passed in; the derived document title and synthesized date were written
only to the private deep copy. -/
theorem create_tei_preserves_caller_metadata :
    ∀ (σ : List MetaD) (addr : Nat) (doc : List (List String)) (rows : List MatchRow),
      addr < σ.length →
      (create_tei_store σ addr doc rows).2[addr]? = σ[addr]? := by
  intro σ addr doc rows h
  have hne : ¬ σ.length = addr := fun he => absurd (he ▸ h) (lt_irrefl _)
  have happ : (σ ++ [σ[addr]])[addr]? = some σ[addr] := by
    rw [List.getElem?_append_left h, List.getElem?_eq_getElem h]
  simp only [create_tei_store, List.getElem?_eq_getElem h]
  cases hmp : (σ[addr]).protocol with
  | none => simpa using happ
  | some pid =>
    simp only []
    rw [List.getElem?_set_ne, List.getElem?_set_ne]
    · exact happ
    · exact hne
    · exact hne

/-- Witness for C10 at a one-entry store. -/
theorem create_tei_preserves_caller_metadata_witness :
    (create_tei_store
        [MetaD.mk (some "prot_1933") none none none none none none none] 0 [] []).2[0]? =
      [MetaD.mk (some "prot_1933") none none none none none none none][0]? :=
  create_tei_preserves_caller_metadata
    [MetaD.mk (some "prot_1933") none none none none none none none] 0 [] []
    (by decide)
